import Mathlib

/-!
# Verification of the normalizing-flow and VAE assignment templates

Shallow embedding over real arithmetic of `assignment_3/code/a3_nf_template.py`
and `assignment_3/code/a3_vae_template.py`.  Tensors of shape `[B, D]` are
modelled per example as functions `Fin D → ℝ` (the batch dimension, where a
claim mentions it, is `Fin B → Fin D → ℝ`); the per-example log-determinant
accumulator `ldj` is a real number.  All PyTorch elementwise operations are
real functions; `torch.rand_like` / `torch.randn` noise is passed as an
explicit argument.  Floating-point rounding is idealised away: "within
floating-point tolerance" is read as exact equality of the real-number
values, and "finite" as "every partial primitive (`log`) is applied inside
its domain".
-/

noncomputable section

open Real

/-- `log_prior` (a3_nf_template.py, lines 15-22): elementwise log-density of a
standard Gaussian, `logp = -0.5 * (log(2*pi) + x**2)`. -/
def log_prior (x : ℝ) : ℝ := -0.5 * (Real.log (2 * Real.pi) + x ^ 2)

/-- `torch.nn.ReLU`: `max x 0`. -/
def relu (x : ℝ) : ℝ := max x 0

/-- `torch.sigmoid`: `1 / (1 + exp (-x))`. -/
def sigmoid (x : ℝ) : ℝ := 1 / (1 + Real.exp (-x))

/-- `torch.nn.Linear`: `y i = (W x) i + b i`. -/
def linear {m n : ℕ} (W : Fin m → Fin n → ℝ) (b : Fin m → ℝ) (x : Fin n → ℝ) :
    Fin m → ℝ :=
  fun i => (∑ j, W i j * x j) + b i

/-- Parameters of the coupling network `self.nn` (a3_nf_template.py, lines
62-68): `Linear(c_in, n_hidden) ∘ ReLU ∘ Linear(n_hidden, n_hidden) ∘ ReLU ∘
Linear(n_hidden, 2*c_in)`.  The final layer has `2*D` output rows and its
output is split by `chunk(2, -1)` into the scale head (first `D` rows) and the
translation head (last `D` rows); we represent it by those two halves
(`W3s`/`b3s` and `W3t`/`b3t`). -/
structure CouplingNN (D H : ℕ) where
  W1 : Fin H → Fin D → ℝ
  b1 : Fin H → ℝ
  W2 : Fin H → Fin H → ℝ
  b2 : Fin H → ℝ
  W3s : Fin D → Fin H → ℝ
  b3s : Fin D → ℝ
  W3t : Fin D → Fin H → ℝ
  b3t : Fin D → ℝ

/-- Run the coupling network: `s, t = self.nn(x).chunk(2, -1)`. -/
def CouplingNN.run {D H : ℕ} (net : CouplingNN D H) (x : Fin D → ℝ) :
    (Fin D → ℝ) × (Fin D → ℝ) :=
  let h1 := fun i => relu (linear net.W1 net.b1 x i)
  let h2 := fun i => relu (linear net.W2 net.b2 h1 i)
  (linear net.W3s net.b3s h2, linear net.W3t net.b3t h2)

/-- A coupling layer (a3_nf_template.py, `Coupling`): a fixed mask buffer and
the coupling network. -/
structure Coupling (D H : ℕ) where
  mask : Fin D → ℝ
  nn : CouplingNN D H

/-- `log_scale = torch.tanh(s) * (1 - self.mask)` where
`s, t = self.nn(z * self.mask).chunk(2, -1)` (lines 85-86). -/
def Coupling.logScale {D H : ℕ} (c : Coupling D H) (z : Fin D → ℝ) :
    Fin D → ℝ :=
  fun i => Real.tanh ((c.nn.run (fun j => z j * c.mask j)).1 i) * (1 - c.mask i)

/-- `t = t * (1 - self.mask)` (line 87). -/
def Coupling.t {D H : ℕ} (c : Coupling D H) (z : Fin D → ℝ) : Fin D → ℝ :=
  fun i => (c.nn.run (fun j => z j * c.mask j)).2 i * (1 - c.mask i)

/-- `Coupling.forward` (a3_nf_template.py, lines 75-96).
Forward (`reverse=False`): `z = log_scale.exp() * (z + t)` and
`ldj += log_scale.sum(-1)`.
Reverse: `z = log_scale.mul(-1).exp() * z - t` with `ldj` untouched. -/
def Coupling.forward {D H : ℕ} (c : Coupling D H) (z : Fin D → ℝ) (ldj : ℝ)
    (reverse : Bool) : (Fin D → ℝ) × ℝ :=
  if reverse then
    (fun i => Real.exp (-1 * c.logScale z i) * z i - c.t z i, ldj)
  else
    (fun i => Real.exp (c.logScale z i) * (z i + c.t z i),
      ldj + ∑ i, c.logScale z i)

/-- `Flow.forward` (a3_nf_template.py, lines 114-122): apply the coupling
layers in order; in reverse mode, apply them in reversed order, each in
reverse mode. -/
def Flow.forward {D H : ℕ} (layers : List (Coupling D H)) (z : Fin D → ℝ)
    (logdet : ℝ) (reverse : Bool) : (Fin D → ℝ) × ℝ :=
  if reverse then
    layers.reverse.foldl (fun p layer => layer.forward p.1 p.2 true) (z, logdet)
  else
    layers.foldl (fun p layer => layer.forward p.1 p.2 false) (z, logdet)

/-- `alpha = 1e-5` (a3_nf_template.py, line 137). -/
def nfAlpha : ℝ := 1e-5

/-- The affine shrink applied after dividing by 256:
`z*(1-alpha) + alpha*0.5` (line 145). -/
def normShrink (x : ℝ) : ℝ := x * (1 - nfAlpha) + nfAlpha * 0.5

/-- `Model.logit_normalize` (a3_nf_template.py, lines 133-158).
Forward: divide by 256 (adjusting `logdet` by `-log 256` per dimension),
shrink toward 0.5 by `alpha`, add the log-derivative of the logit map to
`logdet`, and return the logit.  Reverse: add `log z + log (1-z)` of the
*input* to `logdet`, apply the sigmoid, multiply by 256 and adjust `logdet`
by `+log 256` per dimension. -/
def Model.logit_normalize {D : ℕ} (z : Fin D → ℝ) (logdet : ℝ)
    (reverse : Bool) : (Fin D → ℝ) × ℝ :=
  if reverse then
    let logdet1 := logdet + ∑ i, (Real.log (z i) + Real.log (1 - z i))
    let z1 := fun i => sigmoid (z i)
    let z2 := fun i => z1 i * 256
    (z2, logdet1 + Real.log 256 * D)
  else
    let z1 := fun i => z i / 256
    let logdet1 := logdet - Real.log 256 * D
    let z2 := fun i => normShrink (z1 i)
    let logdet2 := logdet1 + ∑ i, (-Real.log (z2 i) - Real.log (1 - z2 i))
    (fun i => Real.log (z2 i) - Real.log (1 - z2 i), logdet2)

/-- `Model.dequantize` (line 130-131): `z + torch.rand_like(z)`, with the
uniform noise `u` passed explicitly. -/
def Model.dequantize {D : ℕ} (z u : Fin D → ℝ) : Fin D → ℝ :=
  fun i => z i + u i

/-- `Model.forward` (a3_nf_template.py, lines 160-175) for one example:
dequantize, logit-normalize, run the flow, and return
`log_px = log_prior(z).sum() + ldj` (the accumulator starts at 0). -/
def Model.forward {D H : ℕ} (layers : List (Coupling D H))
    (input u : Fin D → ℝ) : ℝ :=
  let z0 := Model.dequantize input u
  let p1 := Model.logit_normalize z0 0 false
  let p2 := Flow.forward layers p1.1 p1.2 false
  (∑ i, log_prior (p2.1 i)) + p2.2

/-- `Model.sample` (a3_nf_template.py, lines 177-188) for one example: the
standard-Gaussian draw `z` is passed explicitly; invert the flow, then invert
the logit normalization, and return the resulting pixel-space vector
(`ldj` starts at 0 and is discarded). -/
def Model.sample {D H : ℕ} (layers : List (Coupling D H)) (z : Fin D → ℝ) :
    Fin D → ℝ :=
  let p1 := Flow.forward layers z 0 true
  (Model.logit_normalize p1.1 p1.2 true).1

/-- `Model.sample` on a batch of `n` prior draws: row `b` of the returned
`[n, D]` tensor is the sample produced from prior draw `ε b`. -/
def Model.sampleBatch {n D H : ℕ} (layers : List (Coupling D H))
    (ε : Fin n → Fin D → ℝ) : Fin n → Fin D → ℝ :=
  fun b => Model.sample layers (ε b)

/-- The initialization invariant established by `Coupling.__init__` (lines
70-73): the weights and biases of the final linear layer of the coupling
network are all exactly zero. -/
def CouplingNN.lastZero {D H : ℕ} (net : CouplingNN D H) : Prop :=
  (∀ i j, net.W3s i j = 0) ∧ (∀ i, net.b3s i = 0) ∧
  (∀ i j, net.W3t i j = 0) ∧ (∀ i, net.b3t i = 0)

/-- Parameters of the VAE `Encoder` (a3_vae_template.py, lines 11-20):
`linear1 : N → H`, then the heads `linear_mu : H → Z` and
`linear_std : H → Z`; the activation is ReLU. -/
structure Encoder (N H Z : ℕ) where
  W1 : Fin H → Fin N → ℝ
  b1 : Fin H → ℝ
  Wmu : Fin Z → Fin H → ℝ
  bmu : Fin Z → ℝ
  Wstd : Fin Z → Fin H → ℝ
  bstd : Fin Z → ℝ

/-- `Encoder.forward` (a3_vae_template.py, lines 22-34):
`h = ReLU(linear1 input)`, `mean = linear_mu h`,
`std = ReLU(linear_std h)`. -/
def Encoder.forward {N H Z : ℕ} (e : Encoder N H Z) (input : Fin N → ℝ) :
    (Fin Z → ℝ) × (Fin Z → ℝ) :=
  let h := fun i => relu (linear e.W1 e.b1 input i)
  (linear e.Wmu e.bmu h, fun i => relu (linear e.Wstd e.bstd h i))

/-- The exception raised by the unimplemented VAE template methods. -/
inductive PyError where
  | notImplemented
deriving DecidableEq

/-- `VAE.sample` (a3_vae_template.py, lines 97-106): sets
`sampled_ims, im_means = None, None` and then unconditionally raises
`NotImplementedError()`; the `return` statement is unreachable, so the call
always produces the error and never a pair of results. -/
def VAE.sample (n_samples : ℕ) : Except PyError (Option Unit × Option Unit) :=
  Except.error PyError.notImplemented

/-- `epoch_iter` of a3_vae_template.py (lines 109-119): sets
`average_epoch_elbo = None` and then unconditionally raises
`NotImplementedError()` before touching the model, the data or the
optimizer; the `return` is unreachable. -/
def vae_epoch_iter {M D O : Type} (model : M) (data : D) (optimizer : O) :
    Except PyError (Option ℝ) :=
  Except.error PyError.notImplemented

/-- Forward-then-reverse composition of `Model.logit_normalize`: run the
normalization in the forward direction and feed the resulting `(z, ldj)`
pair into the reverse direction. -/
def Model.logitRoundtrip {D : ℕ} (z : Fin D → ℝ) (ldj : ℝ) :
    (Fin D → ℝ) × ℝ :=
  let p := Model.logit_normalize z ldj false
  Model.logit_normalize p.1 p.2 true

/-- The concrete input `256 * 119999 / 199998 ≈ 153.6` used to exhibit the
`ldj` bookkeeping error of the reverse direction of `logit_normalize`: it is
chosen so that the shrunk normalized value is exactly `3/5`. -/
def c6Input : Fin 1 → ℝ := fun _ => 256 * 119999 / 199998

/-- A concrete VAE encoder at the template's dimensions (input 784, hidden
500, latent 20) with every weight and bias zero. -/
def zeroEncoder : Encoder 784 500 20 :=
  ⟨fun _ _ => 0, fun _ => 0, fun _ _ => 0, fun _ => 0, fun _ _ => 0, fun _ => 0⟩

/-- A concrete coupling network (`D = 1`, `H = 1`) with every weight and
bias zero, as all linear layers start before training in the template's
zero-initialized final layer; used to instantiate universally quantified
theorems on a concrete input. -/
def zeroCouplingNN : CouplingNN 1 1 :=
  ⟨fun _ _ => 0, fun _ => 0, fun _ _ => 0, fun _ => 0,
   fun _ _ => 0, fun _ => 0, fun _ _ => 0, fun _ => 0⟩

/-- A concrete coupling layer with all-ones mask over `zeroCouplingNN`. -/
def couplingOnes : Coupling 1 1 := ⟨fun _ => 1, zeroCouplingNN⟩

/-- A concrete coupling layer with all-zeros mask over `zeroCouplingNN`. -/
def couplingZeros : Coupling 1 1 := ⟨fun _ => 0, zeroCouplingNN⟩

/-! ## Helper lemmas about the coupling layer -/

/-- On a coordinate where the mask is 1, the factor `1 - mask i` kills both
the scale and the translation, so either direction of the coupling transform
fixes that coordinate. -/
theorem coupling_fixes_mask_one {D H : ℕ} (c : Coupling D H) (z : Fin D → ℝ)
    (ldj : ℝ) (r : Bool) (i : Fin D) (h : c.mask i = 1) :
    (c.forward z ldj r).1 i = z i := by
  cases r <;>
    simp [Coupling.forward, Coupling.logScale, Coupling.t, h]

/-- For a 0/1 mask, the forward coupling transform leaves `z ⊙ mask`
unchanged (the network input of the inverse pass therefore coincides with
that of the forward pass). -/
theorem coupling_forward_mul_mask {D H : ℕ} (c : Coupling D H)
    (hm : ∀ i, c.mask i = 0 ∨ c.mask i = 1) (z : Fin D → ℝ) (ldj : ℝ)
    (j : Fin D) :
    (c.forward z ldj false).1 j * c.mask j = z j * c.mask j := by
  rcases hm j with h | h
  · simp [h]
  · rw [coupling_fixes_mask_one c z ldj false j h]

/-- `logScale` only depends on `z` through `z ⊙ mask`. -/
theorem coupling_logScale_congr {D H : ℕ} (c : Coupling D H)
    (z z' : Fin D → ℝ) (h : ∀ j, z j * c.mask j = z' j * c.mask j) :
    c.logScale z = c.logScale z' := by
  have hfun : (fun j => z j * c.mask j) = fun j => z' j * c.mask j := funext h
  unfold Coupling.logScale
  rw [hfun]

/-- `t` only depends on `z` through `z ⊙ mask`. -/
theorem coupling_t_congr {D H : ℕ} (c : Coupling D H)
    (z z' : Fin D → ℝ) (h : ∀ j, z j * c.mask j = z' j * c.mask j) :
    c.t z = c.t z' := by
  have hfun : (fun j => z j * c.mask j) = fun j => z' j * c.mask j := funext h
  unfold Coupling.t
  rw [hfun]

/-- A coupling network whose last layer is all zero outputs the zero pair,
whatever its first two layers and its input. -/
theorem couplingNN_run_lastZero {D H : ℕ} (net : CouplingNN D H)
    (h : net.lastZero) (x : Fin D → ℝ) :
    net.run x = (fun _ => 0, fun _ => 0) := by
  obtain ⟨h1, h2, h3, h4⟩ := h
  simp [CouplingNN.run, linear, Prod.ext_iff, funext_iff, h1, h2, h3, h4]

/-- With a zero last layer the coupling transform is the identity on `(z, ldj)`
in both directions. -/
theorem coupling_lastZero_id {D H : ℕ} (c : Coupling D H) (h : c.nn.lastZero)
    (z : Fin D → ℝ) (ldj : ℝ) (r : Bool) : c.forward z ldj r = (z, ldj) := by
  have hr := couplingNN_run_lastZero c.nn h (fun j => z j * c.mask j)
  have hls : c.logScale z = fun _ => 0 := by
    funext i
    simp [Coupling.logScale, hr]
  have ht : c.t z = fun _ => 0 := by
    funext i
    simp [Coupling.t, hr]
  cases r <;> simp [Coupling.forward, hls, ht]

/-! ## Claim theorems for the coupling layer -/

/-- C4: for every coupling-network parameter setting, every input `z`, every
accumulator `ldj` and both directions, the coupling transform leaves every
coordinate where the mask equals 1 unchanged. -/
theorem coupling_mask_one_invariant {D H : ℕ} (c : Coupling D H)
    (z : Fin D → ℝ) (ldj : ℝ) (r : Bool) (i : Fin D) (h : c.mask i = 1) :
    (c.forward z ldj r).1 i = z i :=
  coupling_fixes_mask_one c z ldj r i h

/-- Witness for `coupling_mask_one_invariant`: the all-ones mask over the
zero network on input `3`, `ldj = 5`, forward direction. -/
theorem coupling_mask_one_invariant_witness :
    couplingOnes.mask 0 = 1 ∧ (couplingOnes.forward (fun _ => 3) 5 false).1 0 = 3 :=
  ⟨rfl, coupling_mask_one_invariant couplingOnes (fun _ => 3) 5 false 0 rfl⟩

/-- C5: in reverse mode the coupling transform returns
`z' = exp (-log_scale) ⊙ z - t`, where `log_scale = tanh s ⊙ (1 - mask)` and
`t` is the translation head masked by `1 - mask`, and it returns the
accumulator `ldj` exactly unchanged. -/
theorem coupling_reverse_frame {D H : ℕ} (c : Coupling D H) (z : Fin D → ℝ)
    (ldj : ℝ) :
    c.forward z ldj true =
      (fun i =>
          Real.exp (-(Real.tanh ((c.nn.run fun j => z j * c.mask j).1 i) *
              (1 - c.mask i))) * z i -
            (c.nn.run fun j => z j * c.mask j).2 i * (1 - c.mask i),
        ldj) := by
  simp [Coupling.forward, Coupling.logScale, Coupling.t, neg_mul, one_mul]

/-- C2: for every coupling layer with a 0/1 mask, forward then reverse
reconstructs the original input exactly. -/
theorem coupling_forward_inverse_id {D H : ℕ} (c : Coupling D H)
    (hm : ∀ i, c.mask i = 0 ∨ c.mask i = 1) (z : Fin D → ℝ) (ldj : ℝ) :
    (c.forward (c.forward z ldj false).1 (c.forward z ldj false).2 true).1
      = z := by
  have hmm : ∀ j, (c.forward z ldj false).1 j * c.mask j = z j * c.mask j :=
    fun j => coupling_forward_mul_mask c hm z ldj j
  have hls := coupling_logScale_congr c _ z hmm
  have ht := coupling_t_congr c _ z hmm
  funext i
  have houter :
      (c.forward (c.forward z ldj false).1 (c.forward z ldj false).2 true).1 i
        = Real.exp (-1 * c.logScale (c.forward z ldj false).1 i) *
            (c.forward z ldj false).1 i -
          c.t (c.forward z ldj false).1 i := rfl
  have hinner : (c.forward z ldj false).1 i
      = Real.exp (c.logScale z i) * (z i + c.t z i) := rfl
  rw [houter, hls, ht, hinner]
  have key : Real.exp (-1 * c.logScale z i) * Real.exp (c.logScale z i) = 1 := by
    rw [← Real.exp_add]
    ring_nf
    exact Real.exp_zero
  linear_combination (z i + c.t z i) * key

/-- Witness for `coupling_forward_inverse_id`: the all-zeros mask over the
zero network on input `2`, `ldj = 0`. -/
theorem coupling_forward_inverse_id_witness :
    (∀ i : Fin 1, couplingZeros.mask i = 0 ∨ couplingZeros.mask i = 1) ∧
      (couplingZeros.forward (couplingZeros.forward (fun _ => 2) 0 false).1
          (couplingZeros.forward (fun _ => 2) 0 false).2 true).1 = fun _ => 2 :=
  ⟨fun _ => Or.inl rfl,
    coupling_forward_inverse_id couplingZeros (fun _ => Or.inl rfl) (fun _ => 2) 0⟩

/-- C3: with the zero-initialized last layer produced by `Coupling.__init__`,
the coupling transform is the identity and adds zero to `ldj` (both
directions); in particular a flow of 2 such layers (a mask and its
complement) on any batch of 4 examples of dimension 784 returns the input
unchanged with `ldj = 0` for every example. -/
theorem coupling_zero_init_identity :
    (∀ (D H : ℕ) (c : Coupling D H), c.nn.lastZero →
        ∀ (z : Fin D → ℝ) (ldj : ℝ) (r : Bool), c.forward z ldj r = (z, ldj)) ∧
      (∀ (H : ℕ) (mask : Fin 784 → ℝ) (net net' : CouplingNN 784 H),
        net.lastZero → net'.lastZero →
        ∀ (batch : Fin 4 → Fin 784 → ℝ) (b : Fin 4),
          Flow.forward [⟨mask, net⟩, ⟨fun i => 1 - mask i, net'⟩]
              (batch b) 0 false
            = (batch b, 0)) := by
  constructor
  · intro D H c h z ldj r
    exact coupling_lastZero_id c h z ldj r
  · intro H mask net net' h h' batch b
    simp [Flow.forward, coupling_lastZero_id ⟨mask, net⟩ h,
      coupling_lastZero_id ⟨fun i => 1 - mask i, net'⟩ h']

/-- Witness for `coupling_zero_init_identity`: the all-zero network satisfies
the initialization invariant and the transform fixes `(2, 5)`. -/
theorem coupling_zero_init_identity_witness :
    zeroCouplingNN.lastZero ∧
      couplingOnes.forward (fun _ => 2) 5 false = (fun _ => 2, 5) := by
  have h : zeroCouplingNN.lastZero :=
    ⟨fun _ _ => rfl, fun _ => rfl, fun _ _ => rfl, fun _ => rfl⟩
  exact ⟨h, coupling_zero_init_identity.1 1 1 couplingOnes h (fun _ => 2) 5 false⟩

/-! ## Helper lemmas about sigmoid and the normalization shrink -/

/-- The sigmoid is strictly positive. -/
theorem sigmoid_pos (x : ℝ) : 0 < sigmoid x := by
  unfold sigmoid
  have h := Real.exp_pos (-x)
  positivity

/-- The sigmoid is strictly below one. -/
theorem sigmoid_lt_one (x : ℝ) : sigmoid x < 1 := by
  unfold sigmoid
  have h := Real.exp_pos (-x)
  rw [div_lt_one (by linarith)]
  linarith

/-- The sigmoid inverts the logit map on `(0, 1)`. -/
theorem sigmoid_logit (x : ℝ) (h0 : 0 < x) (h1 : x < 1) :
    sigmoid (Real.log x - Real.log (1 - x)) = x := by
  unfold sigmoid
  have h1' : 0 < 1 - x := by linarith
  rw [neg_sub, Real.exp_sub, Real.exp_log h1', Real.exp_log h0]
  field_simp

/-- The affine shrink maps `[0, 1)` into `(0, 1)`. -/
theorem normShrink_mem (x : ℝ) (h0 : 0 ≤ x) (h1 : x < 1) :
    0 < normShrink x ∧ normShrink x < 1 := by
  unfold normShrink nfAlpha
  constructor <;> nlinarith

/-- Value of the forward-then-reverse logit normalization at a coordinate
strictly inside `(0, 256)`: the division, logit and sigmoid steps cancel
exactly, but nothing undoes the `alpha`-shrink, so the composite is the
affine map `z ↦ (1 - alpha) * z + 128 * alpha`. -/
theorem logitRoundtrip_val {D : ℕ} (z : Fin D → ℝ) (ldj : ℝ) (i : Fin D)
    (h0 : 0 < z i) (h1 : z i < 256) :
    (Model.logitRoundtrip z ldj).1 i = (1 - nfAlpha) * z i + 128 * nfAlpha := by
  have key : (Model.logitRoundtrip z ldj).1 i
      = sigmoid (Real.log (normShrink (z i / 256)) -
          Real.log (1 - normShrink (z i / 256))) * 256 := rfl
  rw [key]
  have hmem := normShrink_mem (z i / 256) (div_nonneg h0.le (by norm_num))
    ((div_lt_one (by norm_num)).mpr h1)
  rw [sigmoid_logit _ hmem.1 hmem.2]
  unfold normShrink
  ring

/-- `2/5 < log (3/2)`, via `exp (2/5) ^ 5 = exp 2 < (3/2) ^ 5`. -/
theorem log_three_halves_gt : (2 / 5 : ℝ) < Real.log (3 / 2) := by
  rw [Real.lt_log_iff_exp_lt (by norm_num : (0 : ℝ) < 3 / 2)]
  have h5 : Real.exp ((5 : ℕ) * (2 / 5 : ℝ)) = Real.exp (2 / 5) ^ 5 :=
    Real.exp_nat_mul (2 / 5) 5
  have h5' : Real.exp 2 = Real.exp (2 / 5) ^ 5 := by
    rw [← h5]
    norm_num
  have he1 := Real.exp_one_lt_d9
  have he2 : Real.exp 2 < 7.5 := by
    have hsq : Real.exp 2 = Real.exp 1 * Real.exp 1 := by
      rw [← Real.exp_add]
      norm_num
    nlinarith [Real.exp_pos 1]
  by_contra hcon
  push_neg at hcon
  have hpow : (3 / 2 : ℝ) ^ 5 ≤ Real.exp (2 / 5) ^ 5 :=
    pow_le_pow_left₀ (by norm_num) hcon 5
  rw [← h5'] at hpow
  norm_num at hpow
  linarith

/-- `log (3/2) < 3/5`, since `3/2 < 1 + 3/5 < exp (3/5)`. -/
theorem log_three_halves_lt : Real.log (3 / 2) < 3 / 5 := by
  rw [Real.log_lt_iff_lt_exp (by norm_num : (0 : ℝ) < 3 / 2)]
  have h := Real.add_one_lt_exp (by norm_num : (3 / 5 : ℝ) ≠ 0)
  linarith

/-- The quantity the reverse branch adds for its sigmoid step when given the
logit-space value `log (3/2)` differs from the sign-flip of what the forward
branch added for its logit step at the corresponding point `3/5`: the reverse
evaluates `log z + log (1 - z)` at the pre-sigmoid value instead of the
post-sigmoid value. -/
theorem c6_core : Real.log (Real.log (3 / 2)) + Real.log (1 - Real.log (3 / 2))
    ≠ Real.log (3 / 5) + Real.log (2 / 5) := by
  have hg := log_three_halves_gt
  have hl := log_three_halves_lt
  have hp1 : 0 < Real.log (3 / 2) := by linarith
  have hp2 : 0 < 1 - Real.log (3 / 2) := by linarith
  have hgt : (6 / 25 : ℝ) < Real.log (3 / 2) * (1 - Real.log (3 / 2)) := by
    nlinarith
  have e1 : Real.log (Real.log (3 / 2)) + Real.log (1 - Real.log (3 / 2))
      = Real.log (Real.log (3 / 2) * (1 - Real.log (3 / 2))) :=
    (Real.log_mul hp1.ne' hp2.ne').symm
  have e2 : Real.log (3 / 5) + Real.log (2 / 5) = Real.log (6 / 25) := by
    rw [← Real.log_mul (by norm_num) (by norm_num)]
    norm_num
  rw [e1, e2]
  exact (Real.log_lt_log (by norm_num) hgt).ne'

/-! ## Claim theorems: logit normalization -/

/-- C1 counterexample: on the constant vector `1` (all components strictly
inside `(0, 256)`) with accumulator `0`, forward-then-reverse
`logit_normalize` does not reconstruct the input: the returned component is
`1 + 127e-5`, an absolute deviation of `1.27e-3`, orders of magnitude above
floating-point round-off at this scale. -/
theorem logit_roundtrip_not_id :
    (Model.logitRoundtrip (fun _ : Fin 1 => 1) 0).1 0 ≠ 1 := by
  rw [logitRoundtrip_val (fun _ : Fin 1 => 1) 0 0 (by norm_num) (by norm_num)]
  norm_num [nfAlpha]

/-- C1 (amended): for inputs strictly inside `(0, 256)` and any accumulator,
forward-then-reverse `logit_normalize` returns exactly
`(1 - alpha) * z + 128 * alpha` componentwise (`alpha = 1e-5`): the `(÷256,
logit)` chain is inverted exactly by `(sigmoid, ×256)` but the
`alpha`-shrink is never undone, so the reconstruction error is
`alpha * (128 - z_i)`, of absolute value at most `128 * alpha = 1.28e-3`. -/
theorem logit_normalize_roundtrip_shrink {D : ℕ} (z : Fin D → ℝ) (ldj : ℝ)
    (hz : ∀ i, 0 < z i ∧ z i < 256) :
    ((Model.logitRoundtrip z ldj).1
        = fun i => (1 - nfAlpha) * z i + 128 * nfAlpha) ∧
      ∀ i, |(Model.logitRoundtrip z ldj).1 i - z i| ≤ 128 * nfAlpha := by
  have hval : ∀ i, (Model.logitRoundtrip z ldj).1 i
      = (1 - nfAlpha) * z i + 128 * nfAlpha :=
    fun i => logitRoundtrip_val z ldj i (hz i).1 (hz i).2
  refine ⟨funext hval, fun i => ?_⟩
  rw [hval i, abs_le]
  have h1 := (hz i).1
  have h2 := (hz i).2
  unfold nfAlpha
  constructor <;> nlinarith

/-- Witness for `logit_normalize_roundtrip_shrink`: the constant vector `1`
with accumulator `0`. -/
theorem logit_normalize_roundtrip_shrink_witness :
    (∀ i : Fin 1, 0 < (fun _ : Fin 1 => (1 : ℝ)) i ∧
        (fun _ : Fin 1 => (1 : ℝ)) i < 256) ∧
      (Model.logitRoundtrip (fun _ : Fin 1 => 1) 0).1
        = fun _ => (1 - nfAlpha) * 1 + 128 * nfAlpha := by
  have h : ∀ i : Fin 1, 0 < (fun _ : Fin 1 => (1 : ℝ)) i ∧
      (fun _ : Fin 1 => (1 : ℝ)) i < 256 := by
    intro i
    constructor <;> norm_num
  exact ⟨h, (logit_normalize_roundtrip_shrink (fun _ : Fin 1 => 1) 0 h).1⟩

/-- C6: the `ldj` adjustments of the reverse direction of `logit_normalize`
are not the sign-flips of the forward direction's.  The `(÷256, ×256)` pair
does match, so if the `(logit, sigmoid)` pair matched as well, running
forward then reverse would return the accumulator to its initial value 0; on
the input `c6Input` (whose shrunk normalized value is exactly `3/5`, with
every logarithm on both paths taking a strictly positive argument) it does
not, because the reverse computes its adjustment `log z + log (1 - z)` on
the pre-sigmoid value `log (3/2)` instead of the post-sigmoid value `3/5`. -/
theorem logit_reverse_ldj_not_signflip :
    (Model.logitRoundtrip c6Input 0).2 ≠ 0 := by
  have hshrink : ∀ i : Fin 1, normShrink (c6Input i / 256) = 3 / 5 := by
    intro i
    show normShrink ((256 * 119999 / 199998 : ℝ) / 256) = 3 / 5
    unfold normShrink nfAlpha
    norm_num
  have hf1 : (Model.logit_normalize c6Input 0 false).1
      = fun _ : Fin 1 => Real.log (3 / 5) - Real.log (1 - 3 / 5) := by
    funext i
    have hkey : (Model.logit_normalize c6Input 0 false).1 i
        = Real.log (normShrink (c6Input i / 256)) -
          Real.log (1 - normShrink (c6Input i / 256)) := rfl
    rw [hkey, hshrink i]
  have hf2 : (Model.logit_normalize c6Input 0 false).2
      = 0 - Real.log 256 * ((1 : ℕ) : ℝ) +
        ∑ i : Fin 1, (-Real.log (normShrink (c6Input i / 256)) -
          Real.log (1 - normShrink (c6Input i / 256))) := rfl
  have hf2' : (Model.logit_normalize c6Input 0 false).2
      = -Real.log 256 + (-Real.log (3 / 5) - Real.log (1 - 3 / 5)) := by
    rw [hf2, Fin.sum_univ_one, hshrink 0]
    push_cast
    ring
  have hr : (Model.logitRoundtrip c6Input 0).2
      = (Model.logit_normalize c6Input 0 false).2 +
          ∑ i : Fin 1,
            (Real.log ((Model.logit_normalize c6Input 0 false).1 i) +
              Real.log (1 - (Model.logit_normalize c6Input 0 false).1 i)) +
          Real.log 256 * ((1 : ℕ) : ℝ) := rfl
  have hlog32 : Real.log (3 / 5) - Real.log (1 - 3 / 5) = Real.log (3 / 2) := by
    rw [show (1 : ℝ) - 3 / 5 = 2 / 5 by norm_num,
      ← Real.log_div (by norm_num) (by norm_num)]
    norm_num
  rw [hr, hf1, Fin.sum_univ_one, hf2', hlog32]
  intro hcontra
  apply c6_core
  have h35 : (1 : ℝ) - 3 / 5 = 2 / 5 := by norm_num
  rw [h35] at hcontra
  push_cast at hcontra
  linarith

/-! ## Claim theorems: model forward safety, sampling range, VAE -/

/-- C7: for any integer pixel values in `[0, 255]` and any dequantization
noise in `[0, 1)`, the shrunk normalized value lies strictly inside `(0, 1)`
at every coordinate.  The two logarithms of the forward branch of
`Model.logit_normalize` (applied to this value and its complement) are the
only partial primitives in the pipeline of `Model.forward` — the flow layers
and `log_prior` use only `exp`, `tanh` and polynomials — so `log_px` is a
well-defined (finite) real number. -/
theorem model_forward_log_args_in_domain {D : ℕ} (p : Fin D → ℤ)
    (hp : ∀ i, 0 ≤ p i ∧ p i ≤ 255) (u : Fin D → ℝ)
    (hu : ∀ i, 0 ≤ u i ∧ u i < 1) (i : Fin D) :
    0 < normShrink (Model.dequantize (fun j => (p j : ℝ)) u i / 256) ∧
      normShrink (Model.dequantize (fun j => (p j : ℝ)) u i / 256) < 1 := by
  have h1 : (0 : ℝ) ≤ (p i : ℝ) := by exact_mod_cast (hp i).1
  have h2 : ((p i : ℝ)) ≤ 255 := by exact_mod_cast (hp i).2
  have h3 := (hu i).1
  have h4 := (hu i).2
  have hz : 0 ≤ Model.dequantize (fun j => (p j : ℝ)) u i := by
    simp only [Model.dequantize]
    linarith
  have hz' : Model.dequantize (fun j => (p j : ℝ)) u i < 256 := by
    simp only [Model.dequantize]
    linarith
  exact normShrink_mem _ (div_nonneg hz (by norm_num))
    ((div_lt_one (by norm_num)).mpr hz')

/-- Witness for `model_forward_log_args_in_domain`: pixel 0 with noise 0. -/
theorem model_forward_log_args_in_domain_witness :
    ((0 : ℤ) ≤ 0 ∧ (0 : ℤ) ≤ 255) ∧ ((0 : ℝ) ≤ 0 ∧ (0 : ℝ) < 1) ∧
      (0 < normShrink
          (Model.dequantize (fun _ : Fin 1 => ((0 : ℤ) : ℝ)) (fun _ => 0) 0 / 256) ∧
        normShrink
          (Model.dequantize (fun _ : Fin 1 => ((0 : ℤ) : ℝ)) (fun _ => 0) 0 / 256) < 1) := by
  refine ⟨⟨le_refl 0, by norm_num⟩, ⟨le_refl 0, by norm_num⟩, ?_⟩
  exact model_forward_log_args_in_domain (fun _ => 0)
    (fun _ => ⟨le_refl 0, by norm_num⟩) (fun _ => 0)
    (fun _ => ⟨le_refl 0, by norm_num⟩) 0

/-- C8: every entry of a batch of samples (type `Fin n → Fin 784 → ℝ`, i.e.
shape `[n_samples, 784]`) lies in `[0, 256)` — in fact strictly inside
`(0, 256)` — for every number of samples, every flow parameter setting and
every prior draw. -/
theorem model_sample_range {n H : ℕ} (layers : List (Coupling 784 H))
    (ε : Fin n → Fin 784 → ℝ) (b : Fin n) (i : Fin 784) :
    0 ≤ Model.sampleBatch layers ε b i ∧ Model.sampleBatch layers ε b i < 256 := by
  have key : Model.sampleBatch layers ε b i
      = sigmoid ((Flow.forward layers (ε b) 0 true).1 i) * 256 := rfl
  rw [key]
  have h1 := sigmoid_pos ((Flow.forward layers (ε b) 0 true).1 i)
  have h2 := sigmoid_lt_one ((Flow.forward layers (ε b) 0 true).1 i)
  constructor <;> nlinarith

/-- C9 counterexample: with all-zero encoder weights (a legal parameter
setting) and the all-zero input image, the `std` head returns
`ReLU 0 = 0` — not strictly positive — at coordinate 0. -/
theorem encoder_std_can_be_zero :
    ¬ (0 < (zeroEncoder.forward (fun _ => 0)).2 0) := by
  have h : (zeroEncoder.forward (fun _ => 0)).2 0 = 0 := by
    simp [Encoder.forward, linear, relu, zeroEncoder]
  rw [h]
  exact lt_irrefl 0

/-- C9 (amended): the `std` tensor returned by `Encoder.forward` is
nonnegative in every coordinate (ReLU output), for every parameter setting
and every input; strict positivity fails because ReLU can return exactly 0. -/
theorem encoder_std_nonneg {N H Z : ℕ} (e : Encoder N H Z)
    (input : Fin N → ℝ) (i : Fin Z) : 0 ≤ (e.forward input).2 i := by
  have h : (e.forward input).2 i
      = relu (linear e.Wstd e.bstd
          (fun j => relu (linear e.W1 e.b1 input j)) i) := rfl
  rw [h]
  exact le_max_right _ _

/-- C10: the unimplemented VAE methods `VAE.sample` and `epoch_iter` raise
`NotImplementedError` on every invocation; in the embedding both are the
constant error value, so no result is ever produced (and no state exists to
be mutated before the raise). -/
theorem vae_stubs_always_raise :
    (∀ n : ℕ, VAE.sample n = Except.error PyError.notImplemented) ∧
      ∀ (M D O : Type) (model : M) (data : D) (optimizer : O),
        vae_epoch_iter model data optimizer
          = Except.error PyError.notImplemented :=
  ⟨fun _ => rfl, fun _ _ _ _ _ _ => rfl⟩

end
